import Mathlib

/-!
Verification of the spamtx transaction-spam engine.

The Go source is shallowly embedded in Lean:

* `Config` / `validateConfig` come from the configuration file
  (`src/unnamed/part_001`, with the `Heavy` / `HeavyAddressCount` fields
  evidenced by the heavy-mode code and its tests).
* `calculateAddressCount`, `parseAmount`, the heavy-mode message
  composition (`heavyPerOutput`, `composeHeavyMsg`) and the spam loop
  (`runLoop`, `spamTransactionsModel`) come from `src/unnamed/part_002`.
* The cosmos-sdk `Coins` operations used by that code (`QuoInt`, `MulInt`,
  `IsZero`, `NewCoins`, `ParseCoinsNormalized`) are embedded after the
  sdk sources, restricted to the non-negative integer amounts this tool
  produces.  Machine integers (`uint64`) are modelled as `Nat` with an
  explicit `% 2 ^ 64` where the Go arithmetic can wrap.

Network effects (registry lookup, keyring, client construction, account
queries, broadcasting) are modelled by an environment record `PreEnv` of
oracle results and a per-attempt `TickResult`, so that the engine's
control flow is a pure function of the environment and an event trace.
-/

namespace Spamtx

/-- Word size of the Go `uint64` values (`TPS`, `GasLimit`, sequence
numbers, transaction counters). -/
def wordSize : Nat := 2 ^ 64

/-- Command line configuration (`Config` in the Go source).  `TPS`,
`GasLimit` and `HeavyAddressCount` are `uint64` in Go and are modelled as
`Nat`; theorems that depend on wrap-around carry explicit bounds. -/
structure Config where
  Chain : String
  Account : String
  Fees : String
  Memo : String
  TPS : Nat
  GasLimit : Nat
  RPC : String
  Heavy : Bool
  HeavyAddressCount : Nat
deriving DecidableEq, Repr

/-- Go `validateConfig` (src/unnamed/part_001:28-46): returns the first
validation error, or `none` for a valid configuration. -/
def validateConfig (config : Config) : Option String :=
  if config.Chain = "" then some "chain name is required"
  else if config.Account = "" then some "account address is required"
  else if config.Fees = "" then some "fees are required"
  else if config.Memo = "" then some "memo is required"
  else if config.TPS = 0 then some "tps must be greater than 0"
  else none

/-- The local `estimatedCount := (config.GasLimit - 50000) / 15000` of Go
`calculateAddressCount` (src/unnamed/part_002:293).  The subtraction is
`uint64` arithmetic, so for `gasLimit < 50000` it wraps modulo `2^64`;
this is made explicit here. -/
def estimatedCount (gasLimit : Nat) : Nat :=
  ((gasLimit + (wordSize - 50000)) % wordSize) / 15000

/-- Go `calculateAddressCount` (src/unnamed/part_002:284-301): how many
outputs a heavy-mode multi-send uses. -/
def calculateAddressCount (config : Config) : Nat :=
  if 0 < config.HeavyAddressCount then
    config.HeavyAddressCount
  else if 0 < config.GasLimit then
    -- Rough estimate in the source: each output uses ~15k gas, with a
    -- 50k buffer for base transaction costs.
    if 0 < estimatedCount config.GasLimit then estimatedCount config.GasLimit else 10
  else
    10

/-- A fixed well-formed configuration used to instantiate concrete
examples (fields mirror the values used by the repository tests). -/
def baseConfig : Config :=
  { Chain := "cosmoshub"
    Account := "cosmos1abc123"
    Fees := "1000uatom"
    Memo := "test memo"
    TPS := 10
    GasLimit := 0
    RPC := ""
    Heavy := true
    HeavyAddressCount := 0 }

/-- A coin is a denomination together with a non-negative quantity
(cosmos-sdk `sdk.Coin`; amounts of valid coins are non-negative, so the
`math.Int` amount is modelled as `Nat`). -/
structure Coin where
  denom : String
  amount : Nat
deriving DecidableEq, Repr

/-- Cosmos-sdk `sdk.Coins`: a list of coins (valid values are sorted by
denomination with unique denominations). -/
abbrev Coins := List Coin

/-- Sdk `Coins.IsZero`: every coin of the set has a zero amount (true for
the empty set). -/
def Coins.IsZero (coins : Coins) : Bool :=
  coins.all fun c => c.amount = 0

/-- Sdk `Coins.QuoInt` / `SafeQuoInt`: divides every coin amount by `x`
(integer division), keeping zero-amount entries; a zero divisor yields
the empty set (the `SafeQuoInt` failure case). -/
def Coins.QuoInt (coins : Coins) (x : Nat) : Coins :=
  if x = 0 then []
  else coins.map fun c => ⟨c.denom, c.amount / x⟩

/-- Sdk `Coins.MulInt`: multiplies every coin amount by `x`.  (The sdk
panics when `x = 0`; the engine only calls this with a positive output
count, see `calculateAddressCount_pos`.) -/
def Coins.MulInt (coins : Coins) (x : Nat) : Coins :=
  coins.map fun c => ⟨c.denom, c.amount * x⟩

/-- Sdk `Coins.AmountOf`: the quantity a coin set carries in denomination
`d` (0 when absent; on valid coin sets the denomination occurs at most
once, so the sum below is that single entry). -/
def Coins.AmountOf : Coins → String → Nat
  | [], _ => 0
  | c :: cs, d => (if c.denom = d then c.amount else 0) + Coins.AmountOf cs d

/-- Lexicographic (byte-wise) order on character lists, matching the byte order Go uses
on the ASCII denomination strings. -/
def charListLt : List Char → List Char → Bool
  | [], [] => false
  | [], _ :: _ => true
  | _ :: _, [] => false
  | a :: as, b :: bs => if a < b then true else if b < a then false else charListLt as bs

/-- The order Go uses on denomination strings. -/
def denomLt (a b : String) : Bool :=
  charListLt a.data b.data

/-- Insertion step for sorting a coin list by denomination. -/
def insertCoin (c : Coin) : Coins → Coins
  | [] => [c]
  | d :: ds => if denomLt c.denom d.denom then c :: d :: ds else d :: insertCoin c ds

/-- Sorting a coin list by denomination (sdk `Coins.Sort`). -/
def sortCoins : Coins → Coins
  | [] => []
  | c :: cs => insertCoin c (sortCoins cs)

/-- Sdk `NewCoins`: sanitizes a coin list by dropping zero amounts and
sorting by denomination.  (The sdk additionally panics on duplicate or
invalid denominations; the engine only passes a single fresh coin.) -/
def NewCoins (l : Coins) : Coins :=
  sortCoins (l.filter fun c => c.amount ≠ 0)

/-- Denomination character class of the sdk denomination regex. -/
def validDenomChar (c : Char) : Bool :=
  c.isAlphanum || c = '/' || c = ':' || c = '.' || c = '_' || c = '-'

/-- Sdk denomination validation: a letter followed by 2 to 127 characters
from the denomination character class. -/
def validDenom (l : List Char) : Bool :=
  match l with
  | [] => false
  | c :: rest => c.isAlpha && rest.all validDenomChar && 3 ≤ l.length && l.length ≤ 128

/-- Splits a character list at commas (the separator of an sdk coin-list
string). -/
def splitComma : List Char → List (List Char)
  | [] => [[]]
  | c :: rest =>
    if c = ',' then [] :: splitComma rest
    else
      match splitComma rest with
      | [] => [[c]]
      | g :: gs => (c :: g) :: gs

/-- Removes leading and trailing whitespace from a character list. -/
def trimChars (l : List Char) : List Char :=
  ((l.dropWhile Char.isWhitespace).reverse.dropWhile Char.isWhitespace).reverse

/-- Decimal value of a digit string. -/
def digitsVal (l : List Char) : Nat :=
  l.foldl (fun n c => n * 10 + (c.toNat - 48)) 0

/-- Sdk `ParseDecCoin` restricted to the integer amounts this tool
consumes: a non-empty run of digits followed by a valid denomination. -/
def parseCoinChars (l : List Char) : Option Coin :=
  let t := trimChars l
  let ds := t.takeWhile Char.isDigit
  let rest := t.dropWhile Char.isDigit
  if ds = [] then none
  else if validDenom rest then some ⟨⟨rest⟩, digitsVal ds⟩
  else none

/-- Parses every fragment of a comma-separated coin string, failing if
any fragment fails. -/
def parseCoinList : List (List Char) → Option Coins
  | [] => some []
  | s :: rest =>
    match parseCoinChars s, parseCoinList rest with
    | some c, some cs => some (c :: cs)
    | _, _ => none

/-- Strictly ascending denominations (sdk `Coins.Validate`; a repeated
denomination is a "duplicate denomination" error). -/
def denomsStrictSorted : Coins → Bool
  | [] => true
  | [_] => true
  | c :: d :: rest => denomLt c.denom d.denom && denomsStrictSorted (d :: rest)

/-- Sdk `ParseCoinsNormalized` (restricted to integer amounts): an empty
string parses to the empty coin set; otherwise every comma-separated
fragment must parse, zero-amount coins are dropped, the rest is sorted
by denomination and must have unique denominations. -/
def ParseCoinsNormalized (s : String) : Option Coins :=
  let t := trimChars s.data
  if t = [] then some []
  else
    match parseCoinList (splitComma t) with
    | none => none
    | some coins =>
      let sanitized := sortCoins (coins.filter fun c => c.amount ≠ 0)
      if denomsStrictSorted sanitized then some sanitized else none

/-- Go `parseAmount` (src/unnamed/part_002:224-239): rejects the empty
string, parser failures, and zero-valued amounts. -/
def parseAmount (amountStr : String) : Except String Coins :=
  if amountStr = "" then .error "amount string cannot be empty"
  else
    match ParseCoinsNormalized amountStr with
    | none => .error "failed to parse coins"
    | some coins =>
      if Coins.IsZero coins then .error "amount must be greater than zero"
      else .ok coins

/-- One entry of a bank multi-send message (`banktypes.Input` and
`banktypes.Output` have the same shape: an address with a coin set). -/
structure BankOutput where
  address : String
  coins : Coins
deriving DecidableEq, Repr

/-- The `banktypes.MsgMultiSend` payload built by heavy mode. -/
structure MsgMultiSend where
  inputs : List BankOutput
  outputs : List BankOutput
deriving DecidableEq, Repr

/-- The per-output amount of Go `sendHeavyTransaction`
(src/unnamed/part_002:316-323): the configured amount integer-divided by
the output count, falling back to one unit of the first denomination when
the whole quotient is zero and the amount set is non-empty. -/
def heavyPerOutput (config : Config) (amount : Coins) : Coins :=
  let outputCount := calculateAddressCount config
  let q := Coins.QuoInt amount outputCount
  if Coins.IsZero q then
    match amount with
    | [] => q
    | c :: _ => NewCoins [⟨c.denom, 1⟩]
  else q

/-- The message-construction part of Go `sendHeavyTransaction`
(src/unnamed/part_002:313-346): a single aggregated input of
`amountPerOutput * outputCount` coins paired with `outputCount` identical
per-output entries, all to the own address of the account. -/
def composeHeavyMsg (config : Config) (amount : Coins) (accountAddr : String) : MsgMultiSend :=
  let outputCount := calculateAddressCount config
  let amountPerOutput := heavyPerOutput config amount
  let totalOutput := Coins.MulInt amountPerOutput outputCount
  { inputs := [{ address := accountAddr, coins := totalOutput }]
    outputs := List.replicate outputCount { address := accountAddr, coins := amountPerOutput } }

/-- Outcome of one submission attempt, as seen by `sendTransaction` /
`sendHeavyTransaction`: transaction creation failed, broadcasting failed
at the transport level, or the network answered with an acceptance code
(0 = accepted) and a transaction hash. -/
inductive TickResult where
  | createError (msg : String)
  | broadcastError (msg : String)
  | response (code : Nat) (txHash : String)
deriving DecidableEq, Repr

/-- An attempt is accepted exactly when the network answered with
acceptance code 0. -/
def TickResult.isAccepted : TickResult → Bool
  | .response 0 _ => true
  | _ => false

/-- The transaction-hash log line emitted by the every-100th sampling in
`sendTransaction` / `sendHeavyTransaction` (src/unnamed/part_002:215-218
and 372-375). -/
structure LogEntry where
  txNum : Nat
  txHash : String
  memo : String
deriving DecidableEq, Repr

/-- One event observed by the `select` of the spam loop: a ticker pulse whose
submission has the given outcome, or the cancellation signal. -/
inductive Event where
  | tick (result : TickResult)
  | cancel
deriving DecidableEq, Repr

/-- Result of Go `sendTransaction` (src/unnamed/part_002:174-221) after
the message is composed: an error for creation failures, broadcast
failures and non-zero response codes, otherwise success together with
the optional sampled log line (emitted when `txNum % 100 == 0`).
`sendHeavyTransaction` has the same error/logging structure. -/
def sendAttemptResult (txNum : Nat) (memo : String) : TickResult → Except String (Option LogEntry)
  | .createError e => .error ("failed to create bank send transaction: " ++ e)
  | .broadcastError e => .error ("failed to broadcast transaction: " ++ e)
  | .response code txHash =>
    if code ≠ 0 then .error ("transaction failed with code " ++ toString code)
    else .ok (if txNum % 100 = 0 then some ⟨txNum, txHash, memo⟩ else none)

/-- The log line `sendAttemptResult` produces, as a function of the
attempt number and outcome alone. -/
def attemptLog (memo : String) (txNum : Nat) : TickResult → Option LogEntry
  | .response 0 txHash => if txNum % 100 = 0 then some ⟨txNum, txHash, memo⟩ else none
  | _ => none

/-- Record of one loop iteration that reached a ticker pulse: the
`txNum` and `sequence` arguments passed to the send function, the
outcome, and the sampled log line (if any). -/
structure Attempt where
  index : Nat
  seq : Nat
  result : TickResult
  log : Option LogEntry
deriving DecidableEq, Repr

/-- How the modelled loop left: the cancellation branch (printing the
final count and returning `nil`), or the finite event trace ran out while
the real loop would still be waiting. -/
inductive LoopExit where
  | cancelled (total : Nat)
  | running (txCount : Nat)
deriving DecidableEq, Repr

/-- The transaction counter an exit carries. -/
def exitCount : LoopExit → Nat
  | .cancelled n => n
  | .running n => n

/-- Number of accepted attempts in a list. -/
def countAccepted (l : List Attempt) : Nat :=
  l.countP fun a => a.result.isAccepted

/-- The spam loop of Go `spamTransactions` (src/unnamed/part_002:128-170):
on a ticker pulse it submits with `txNum = txCount` and
`sequence + txCount` (both `uint64`), increments `txCount` only when the
submission succeeded, and on cancellation returns the current count.
The `Heavy` branch calls `sendHeavyTransaction` instead of
`sendTransaction`; both have the control behaviour of
`sendAttemptResult`. -/
def runLoop (memo : String) (sequence txCount : Nat) : List Event → List Attempt × LoopExit
  | [] => ([], .running txCount)
  | Event.cancel :: _ => ([], .cancelled txCount)
  | Event.tick r :: rest =>
    match sendAttemptResult txCount memo r with
    | .error _ =>
      let res := runLoop memo sequence txCount rest
      (⟨txCount, (sequence + txCount) % wordSize, r, none⟩ :: res.1, res.2)
    | .ok lg =>
      let res := runLoop memo sequence ((txCount + 1) % wordSize) rest
      (⟨txCount, (sequence + txCount) % wordSize, r, lg⟩ :: res.1, res.2)

/-- Results of the external operations `spamTransactions` performs before
its loop starts (src/unnamed/part_002:51-126), in program order: chain
registry lookup, keyring home, cosmos client construction, keyring
account lookup, address derivation, on-chain account verification, and
the one `fetchAccountSequence` call. -/
structure PreEnv where
  chainInfo : Except String (String × String)
  keyringHome : Except String String
  clientInit : Except String Unit
  accountLookup : Except String Unit
  accountAddr : Except String String
  accountQuery : Except String Unit
  sequenceQuery : Except String Nat
deriving Repr

/-- Go `spamTransactions` (src/unnamed/part_002:51-171): the pre-run
steps in program order, each failure aborting with a wrapped error before
any submission, then the rate-limited loop over the event trace.  The
parsed amount is carried into every submission; it does not affect the
control flow of the loop. -/
def spamTransactionsModel (config : Config) (pre : PreEnv) (events : List Event) :
    Except String (List Attempt × LoopExit) :=
  match pre.chainInfo with
  | .error e => .error ((if config.RPC = "" then "failed to get chain info: "
                         else "failed to get chain info for bech32 prefix: ") ++ e)
  | .ok _ =>
  match pre.keyringHome with
  | .error e => .error ("failed to get keyring home: " ++ e)
  | .ok _ =>
  match pre.clientInit with
  | .error e => .error ("failed to create cosmos client: " ++ e)
  | .ok _ =>
  match pre.accountLookup with
  | .error e => .error ("failed to get account '" ++ config.Account
                        ++ "' from cosmos client keyring: " ++ e)
  | .ok _ =>
  match pre.accountAddr with
  | .error e => .error ("failed to get account '" ++ config.Account ++ "' from keyring: " ++ e)
  | .ok _ =>
  match pre.accountQuery with
  | .error e => .error ("account verification failed: " ++ e)
  | .ok _ =>
  match pre.sequenceQuery with
  | .error e => .error ("failed to fetch account sequence: " ++ e)
  | .ok sequence =>
  match parseAmount config.Fees with
  | .error e => .error ("failed to parse fees as amount: " ++ e)
  | .ok _amount => .ok (runLoop config.Memo sequence 0 events)

/-- The `RunE` closure of Go `spamCmd` (main file): validate the
configuration, and only when validation passes hand the configuration to
`spamTransactions`. -/
def spamCmdRun (config : Config) (pre : PreEnv) (events : List Event) :
    Except String (List Attempt × LoopExit) :=
  match validateConfig config with
  | some e => .error e
  | none => spamTransactionsModel config pre events

/-- An environment in which every pre-run step succeeds; the fetched
account sequence is 42. -/
def preOk : PreEnv :=
  { chainInfo := .ok ("https://rpc.example", "cosmos")
    keyringHome := .ok "/home/user/.spamtx"
    clientInit := .ok ()
    accountLookup := .ok ()
    accountAddr := .ok "cosmos1self"
    accountQuery := .ok ()
    sequenceQuery := .ok 42 }

/-- The attempts a run of the loop performs, starting from a freshly
fetched base sequence and a zero transaction counter. -/
def loopAttempts (memo : String) (sequence : Nat) (events : List Event) : List Attempt :=
  (runLoop memo sequence 0 events).1

/-- A two-attempt trace: a rejection (code 5) followed by an
acceptance. -/
def rejectThenAccept : List Event :=
  [Event.tick (TickResult.response 5 "deadbeef"), Event.tick (TickResult.response 0 "cafe0000")]

theorem calculateAddressCount_pos (config : Config) : 0 < calculateAddressCount config := by
  unfold calculateAddressCount
  split
  · assumption
  · split
    · split
      · assumption
      · decide
    · decide

/-- C2: heavy-mode output count resolution order: an explicit override
`> 0` wins regardless of gas limit (25 gives 25); otherwise, when a gas
limit is present and the estimate `(gasLimit - 50000) / 15000` (computed
in `uint64` arithmetic) is positive it is used (500000 gives 30, 2000000
gives 130, and for `gasLimit ≥ 50000` the estimate agrees with the exact
formula); otherwise the fixed default 10 is used, in particular with no
override and no gas limit. -/
theorem calculateAddressCount_resolution (config : Config)
    (hw : config.GasLimit < wordSize) :
    (0 < config.HeavyAddressCount →
       calculateAddressCount config = config.HeavyAddressCount)
    ∧ (config.HeavyAddressCount = 0 → 0 < config.GasLimit →
        0 < estimatedCount config.GasLimit →
        calculateAddressCount config = estimatedCount config.GasLimit)
    ∧ (config.HeavyAddressCount = 0 →
        (config.GasLimit = 0 ∨ estimatedCount config.GasLimit = 0) →
        calculateAddressCount config = 10)
    ∧ (50000 ≤ config.GasLimit →
        estimatedCount config.GasLimit = (config.GasLimit - 50000) / 15000)
    ∧ calculateAddressCount { baseConfig with HeavyAddressCount := 25, GasLimit := 500000 } = 25
    ∧ calculateAddressCount { baseConfig with GasLimit := 500000 } = 30
    ∧ calculateAddressCount { baseConfig with GasLimit := 2000000 } = 130
    ∧ calculateAddressCount baseConfig = 10 := by
  refine ⟨?_, ?_, ?_, ?_, by decide, by decide, by decide, by decide⟩
  · intro h
    simp [calculateAddressCount, h]
  · intro h0 hg he
    simp [calculateAddressCount, h0, hg, he]
  · intro h0 h
    rcases h with h | h
    · simp [calculateAddressCount, h0, h]
    · simp [calculateAddressCount, h0, h]
  · intro h
    unfold estimatedCount
    have hsub : config.GasLimit + (wordSize - 50000) = (config.GasLimit - 50000) + wordSize := by
      unfold wordSize
      omega
    rw [hsub, Nat.add_mod_right, Nat.mod_eq_of_lt (by unfold wordSize at hw ⊢; omega)]

theorem calculateAddressCount_resolution_witness :
    calculateAddressCount { baseConfig with HeavyAddressCount := 25, GasLimit := 500000 } = 25
    ∧ calculateAddressCount { baseConfig with GasLimit := 500000 } = 30
    ∧ calculateAddressCount { baseConfig with GasLimit := 2000000 } = 130
    ∧ calculateAddressCount baseConfig = 10 := by
  have h := calculateAddressCount_resolution baseConfig (by decide)
  exact ⟨h.2.2.2.2.1, h.2.2.2.2.2.1, h.2.2.2.2.2.2.1, h.2.2.2.2.2.2.2⟩

theorem amountOf_mulInt (c : Coins) (n : Nat) (d : String) :
    Coins.AmountOf (Coins.MulInt c n) d = Coins.AmountOf c d * n := by
  induction c with
  | nil => simp [Coins.MulInt, Coins.AmountOf]
  | cons c0 cs ih =>
    by_cases h : c0.denom = d
    · simp [Coins.MulInt, Coins.AmountOf, h, Nat.add_mul] at ih ⊢
      simpa [Coins.MulInt] using ih
    · simp [Coins.MulInt, Coins.AmountOf, h] at ih ⊢
      simpa [Coins.MulInt] using ih

/-- C5: a heavy-mode transaction is exactly one aggregated input whose
coins are the per-output amount multiplied by the output count, paired
with `outputCount` identical per-output entries, so per denomination the
outputs sum to the input; concretely, 1000uatom split across the default
10 outputs gives 100uatom per output and reconstructs 1000uatom. -/
theorem heavy_multisend_conservation (config : Config) (amount : Coins) (addr : String) :
    (composeHeavyMsg config amount addr).inputs
      = [{ address := addr,
           coins := Coins.MulInt (heavyPerOutput config amount) (calculateAddressCount config) }]
    ∧ (composeHeavyMsg config amount addr).outputs
      = List.replicate (calculateAddressCount config)
          { address := addr, coins := heavyPerOutput config amount }
    ∧ (∀ inp ∈ (composeHeavyMsg config amount addr).inputs, ∀ d : String,
        (((composeHeavyMsg config amount addr).outputs.map
            fun o => Coins.AmountOf o.coins d).sum)
          = Coins.AmountOf inp.coins d)
    ∧ composeHeavyMsg baseConfig [⟨"uatom", 1000⟩] "cosmos1self"
        = { inputs := [{ address := "cosmos1self", coins := [⟨"uatom", 1000⟩] }]
            outputs :=
              List.replicate 10 { address := "cosmos1self", coins := [⟨"uatom", 100⟩] } } := by
  refine ⟨rfl, rfl, ?_, by rfl⟩
  intro inp hinp d
  simp only [composeHeavyMsg, List.mem_singleton] at hinp
  subst hinp
  simp [composeHeavyMsg, List.map_replicate, List.sum_replicate, smul_eq_mul,
    amountOf_mulInt, Nat.mul_comm]

/-- C4 fails as stated: with amount `5stake,1000uatom` and the default 10
outputs the `stake` share underflows to zero, yet the composer does not
fall back to one minimal unit of the first denomination: each output
carries `0stake,100uatom`. -/
theorem heavy_split_partial_underflow_no_fallback :
    (composeHeavyMsg baseConfig [⟨"stake", 5⟩, ⟨"uatom", 1000⟩] "cosmos1self").outputs
      = List.replicate 10
          { address := "cosmos1self", coins := [⟨"stake", 0⟩, ⟨"uatom", 100⟩] }
    ∧ (5 : Nat) / 10 = 0
    ∧ List.replicate 10
          ({ address := "cosmos1self", coins := [⟨"stake", 0⟩, ⟨"uatom", 100⟩] } : BankOutput)
      ≠ List.replicate 10
          ({ address := "cosmos1self", coins := [⟨"stake", 1⟩] } : BankOutput) := by
  refine ⟨by rfl, by rfl, by decide⟩

/-- C4 amended: when the integer division underflows to zero for every
denomination of the (non-empty) amount set, every output carries exactly
one minimal unit of the first denomination, and the aggregated input is
`outputCount` such units, regardless of the configured total. -/
theorem heavy_split_zero_fallback (config : Config) (amount : Coins) (addr : String)
    (c0 : Coin) (cs : Coins) (hamount : amount = c0 :: cs)
    (hz : Coins.IsZero (Coins.QuoInt amount (calculateAddressCount config)) = true) :
    heavyPerOutput config amount = [⟨c0.denom, 1⟩]
    ∧ (composeHeavyMsg config amount addr).outputs
        = List.replicate (calculateAddressCount config)
            { address := addr, coins := [⟨c0.denom, 1⟩] }
    ∧ (composeHeavyMsg config amount addr).inputs
        = [{ address := addr, coins := [⟨c0.denom, calculateAddressCount config⟩] }] := by
  subst hamount
  have hper : heavyPerOutput config (c0 :: cs) = [⟨c0.denom, 1⟩] := by
    simp [heavyPerOutput, hz, NewCoins, sortCoins, insertCoin]
  refine ⟨hper, ?_, ?_⟩
  · simp [composeHeavyMsg, hper]
  · simp [composeHeavyMsg, hper, Coins.MulInt]

theorem heavy_split_zero_fallback_witness :
    (composeHeavyMsg baseConfig [⟨"uatom", 5⟩] "cosmos1self").outputs
      = List.replicate 10 { address := "cosmos1self", coins := [⟨"uatom", 1⟩] }
    ∧ (composeHeavyMsg baseConfig [⟨"uatom", 5⟩] "cosmos1self").inputs
      = [{ address := "cosmos1self", coins := [⟨"uatom", 10⟩] }]
    ∧ Coins.AmountOf [⟨"uatom", 5⟩] "uatom"
        < Coins.AmountOf [⟨"uatom", 10⟩] "uatom" := by
  obtain ⟨-, ho, hi⟩ :=
    heavy_split_zero_fallback baseConfig [⟨"uatom", 5⟩] "cosmos1self" ⟨"uatom", 5⟩ [] rfl (by rfl)
  exact ⟨ho, hi, by decide⟩

/-- C10 fails as stated: a denomination whose per-output share truncates
to zero is not dropped from the outputs; with amount `7stake,500uatom`
and 10 outputs, every output still lists the `stake` entry with a zero
amount. -/
theorem zero_share_denom_not_dropped :
    (composeHeavyMsg baseConfig [⟨"stake", 7⟩, ⟨"uatom", 500⟩] "cosmos1self").outputs
      = List.replicate 10
          { address := "cosmos1self", coins := [⟨"stake", 0⟩, ⟨"uatom", 50⟩] }
    ∧ (7 : Nat) / 10 = 0
    ∧ (∀ out ∈ (composeHeavyMsg baseConfig [⟨"stake", 7⟩, ⟨"uatom", 500⟩] "cosmos1self").outputs,
        (⟨"stake", 0⟩ : Coin) ∈ out.coins)
    ∧ (composeHeavyMsg baseConfig [⟨"stake", 7⟩, ⟨"uatom", 500⟩] "cosmos1self").outputs
      ≠ List.replicate 10 { address := "cosmos1self", coins := [⟨"uatom", 50⟩] } := by
  refine ⟨by rfl, by rfl, by decide, by decide⟩

/-- C10 amended: when the quotient of at least one denomination is positive
(the quotient coin set is not zero) the one-unit fallback is not applied:
the coins of every output are exactly the per-denomination integer quotients,
and a denomination whose share truncates to zero remains listed with a
zero amount. -/
theorem heavy_split_no_fallback (config : Config) (amount : Coins) (addr : String)
    (h : Coins.IsZero (Coins.QuoInt amount (calculateAddressCount config)) = false) :
    heavyPerOutput config amount = Coins.QuoInt amount (calculateAddressCount config)
    ∧ (composeHeavyMsg config amount addr).outputs
        = List.replicate (calculateAddressCount config)
            { address := addr, coins := Coins.QuoInt amount (calculateAddressCount config) }
    ∧ ∀ c ∈ amount,
        (⟨c.denom, c.amount / calculateAddressCount config⟩ : Coin)
          ∈ Coins.QuoInt amount (calculateAddressCount config) := by
  have hper : heavyPerOutput config amount
      = Coins.QuoInt amount (calculateAddressCount config) := by
    simp [heavyPerOutput, h]
  refine ⟨hper, by simp [composeHeavyMsg, hper], ?_⟩
  intro c hc
  have hn : calculateAddressCount config ≠ 0 :=
    Nat.pos_iff_ne_zero.mp (calculateAddressCount_pos config)
  simp only [Coins.QuoInt, if_neg hn]
  exact List.mem_map_of_mem _ hc

theorem heavy_split_no_fallback_witness :
    heavyPerOutput baseConfig [⟨"stake", 20⟩, ⟨"uatom", 300⟩]
      = [⟨"stake", 2⟩, ⟨"uatom", 30⟩]
    ∧ (⟨"stake", 2⟩ : Coin) ∈ Coins.QuoInt [⟨"stake", 20⟩, ⟨"uatom", 300⟩] 10 := by
  obtain ⟨hper, -, hmem⟩ :=
    heavy_split_no_fallback baseConfig [⟨"stake", 20⟩, ⟨"uatom", 300⟩] "cosmos1self" (by rfl)
  exact ⟨hper, hmem ⟨"stake", 20⟩ (by decide)⟩

theorem countAccepted_nil : countAccepted [] = 0 := rfl

theorem countAccepted_cons (a : Attempt) (l : List Attempt) :
    countAccepted (a :: l)
      = countAccepted l + (if a.result.isAccepted then 1 else 0) := by
  simp [countAccepted, List.countP_cons]

theorem sendAttemptResult_error_not_accepted (n : Nat) (memo : String) (r : TickResult)
    (e : String) (h : sendAttemptResult n memo r = .error e) :
    r.isAccepted = false ∧ attemptLog memo n r = none := by
  cases r with
  | createError m => exact ⟨rfl, rfl⟩
  | broadcastError m => exact ⟨rfl, rfl⟩
  | response code txHash =>
    cases code with
    | zero => simp [sendAttemptResult] at h
    | succ k => exact ⟨rfl, rfl⟩

theorem sendAttemptResult_ok_accepted (n : Nat) (memo : String) (r : TickResult)
    (lg : Option LogEntry) (h : sendAttemptResult n memo r = .ok lg) :
    r.isAccepted = true ∧ attemptLog memo n r = lg := by
  cases r with
  | createError m => simp [sendAttemptResult] at h
  | broadcastError m => simp [sendAttemptResult] at h
  | response code txHash =>
    cases code with
    | zero =>
      simp only [sendAttemptResult, ne_eq, not_true_eq_false, if_false, reduceIte] at h
      injection h with h
      refine ⟨rfl, ?_⟩
      show (if n % 100 = 0 then some ⟨n, txHash, memo⟩ else none) = lg
      exact h
    | succ k => simp [sendAttemptResult] at h

theorem runLoop_length_le (memo : String) (sequence : Nat) :
    ∀ (events : List Event) (c : Nat),
      ((runLoop memo sequence c events).1).length ≤ events.length := by
  intro events
  induction events with
  | nil => intro c; simp [runLoop]
  | cons e rest ih =>
    intro c
    cases e with
    | cancel => simp [runLoop]
    | tick r =>
      cases hs : sendAttemptResult c memo r with
      | error e' =>
        simpa [runLoop, hs] using ih c
      | ok lg =>
        simpa [runLoop, hs] using ih ((c + 1) % wordSize)

/-- Recursive invariant of the attempt list produced by `runLoop` when
the counter starts at `c`: each attempt records the current counter as
its `txNum`, the sequence `sequence + txNum` (mod `2^64`), the sampled
log line determined by `txNum` and the outcome, and the counter advances
exactly on accepted attempts. -/
def attemptsSpec (memo : String) (sequence : Nat) : Nat → List Attempt → Prop
  | _, [] => True
  | c, a :: as =>
    a.index = c
    ∧ a.seq = (sequence + c) % wordSize
    ∧ a.log = attemptLog memo c a.result
    ∧ attemptsSpec memo sequence (c + (if a.result.isAccepted then 1 else 0)) as

theorem runLoop_attemptsSpec (memo : String) (sequence : Nat) :
    ∀ (events : List Event) (c : Nat), c + events.length < wordSize →
      attemptsSpec memo sequence c (runLoop memo sequence c events).1 := by
  intro events
  induction events with
  | nil => intro c _; simp [runLoop, attemptsSpec]
  | cons e rest ih =>
    intro c hc
    cases e with
    | cancel => simp [runLoop, attemptsSpec]
    | tick r =>
      have hc1 : c + rest.length < wordSize := by
        simp only [List.length_cons] at hc; omega
      cases hs : sendAttemptResult c memo r with
      | error e' =>
        obtain ⟨hna, hnl⟩ := sendAttemptResult_error_not_accepted c memo r e' hs
        simp only [runLoop, hs]
        exact ⟨rfl, rfl, hnl.symm, by simpa [hna] using ih c hc1⟩
      | ok lg =>
        obtain ⟨hacc, hlg⟩ := sendAttemptResult_ok_accepted c memo r lg hs
        have hmod : (c + 1) % wordSize = c + 1 := by
          apply Nat.mod_eq_of_lt
          simp only [List.length_cons] at hc
          omega
        simp only [runLoop, hs]
        refine ⟨rfl, rfl, hlg.symm, ?_⟩
        have := ih ((c + 1) % wordSize) (by rw [hmod]; simp only [List.length_cons] at hc; omega)
        simpa [hacc, hmod] using this

/-- Reading the recursive invariant at index `i`: the `txNum` of the attempt
is the start counter plus the number of prior accepted attempts, its
sequence is `sequence + txNum` (mod `2^64`), and its log line is the one
sampling determines. -/
theorem attemptsSpec_get (memo : String) (sequence : Nat) :
    ∀ (l : List Attempt) (c : Nat), attemptsSpec memo sequence c l →
      ∀ i (h : i < l.length),
        (l.get ⟨i, h⟩).index = c + countAccepted (l.take i)
        ∧ (l.get ⟨i, h⟩).seq = (sequence + (l.get ⟨i, h⟩).index) % wordSize
        ∧ (l.get ⟨i, h⟩).log
          = attemptLog memo ((l.get ⟨i, h⟩).index) ((l.get ⟨i, h⟩).result) := by
  intro l
  induction l with
  | nil => intro c _ i h; simp at h
  | cons a as ih =>
    intro c hspec i h
    obtain ⟨hidx, hseq, hlog, hrest⟩ := hspec
    cases i with
    | zero =>
      refine ⟨?_, ?_, ?_⟩
      · simpa [countAccepted] using hidx
      · simpa [hidx] using hseq
      · simpa [hidx] using hlog
    | succ j =>
      have hj : j < as.length := Nat.lt_of_succ_lt_succ h
      obtain ⟨hidx', hseq', hlog'⟩ := ih _ hrest j hj
      refine ⟨?_, hseq', hlog'⟩
      simp only [List.get_cons_succ, List.take_succ_cons, countAccepted_cons]
      rw [hidx']
      omega

theorem runLoop_exitCount (memo : String) (sequence : Nat) :
    ∀ (events : List Event) (c : Nat), c + events.length < wordSize →
      exitCount ((runLoop memo sequence c events).2)
        = c + countAccepted ((runLoop memo sequence c events).1) := by
  intro events
  induction events with
  | nil => intro c _; simp [runLoop, countAccepted, exitCount]
  | cons e rest ih =>
    intro c hc
    cases e with
    | cancel => simp [runLoop, countAccepted, exitCount]
    | tick r =>
      have hc1 : c + rest.length < wordSize := by
        simp only [List.length_cons] at hc; omega
      cases hs : sendAttemptResult c memo r with
      | error e' =>
        obtain ⟨hna, -⟩ := sendAttemptResult_error_not_accepted c memo r e' hs
        simp only [runLoop, hs]
        rw [countAccepted_cons, hna, ih c hc1]
        simp
      | ok lg =>
        obtain ⟨hacc, -⟩ := sendAttemptResult_ok_accepted c memo r lg hs
        have hmod : (c + 1) % wordSize = c + 1 := by
          apply Nat.mod_eq_of_lt
          simp only [List.length_cons] at hc
          omega
        simp only [runLoop, hs]
        rw [countAccepted_cons, hmod]
        rw [ih (c + 1) (by simp only [List.length_cons] at hc; omega)]
        simp only [hacc, if_true]
        omega

/-- The loop returns at the first cancellation event: the attempts are
those of the prefix before the cancellation, the exit is the cancelled
branch carrying the counter reached so far, and later events are never
processed. -/
theorem runLoop_cancel_split (memo : String) (sequence : Nat) :
    ∀ (preEv postEv : List Event) (c : Nat), Event.cancel ∉ preEv →
      runLoop memo sequence c (preEv ++ Event.cancel :: postEv)
        = ((runLoop memo sequence c preEv).1,
           LoopExit.cancelled (exitCount ((runLoop memo sequence c preEv).2))) := by
  intro preEv
  induction preEv with
  | nil => intro postEv c _; simp [runLoop, exitCount]
  | cons e rest ih =>
    intro postEv c hnc
    have hne : e ≠ Event.cancel := fun hh => hnc (hh ▸ List.mem_cons_self _ _)
    have hnc' : Event.cancel ∉ rest := fun hh => hnc (List.mem_cons_of_mem _ hh)
    cases e with
    | cancel => exact absurd rfl hne
    | tick r =>
      cases hs : sendAttemptResult c memo r with
      | error e' => simp [List.cons_append, runLoop, hs, ih postEv _ hnc']
      | ok lg => simp [List.cons_append, runLoop, hs, ih postEv _ hnc']

/-- Inversion of the pre-run phase: a successful run is exactly the loop
started at the fetched base sequence. -/
theorem spamModel_ok_inv (config : Config) (pre : PreEnv) (events : List Event)
    (result : List Attempt × LoopExit) (base : Nat)
    (hseq : pre.sequenceQuery = .ok base)
    (hok : spamTransactionsModel config pre events = .ok result) :
    result = runLoop config.Memo base 0 events := by
  obtain ⟨ci, kh, cl, al, aa, aq, sq⟩ := pre
  simp only at hseq
  subst hseq
  cases ci <;> cases kh <;> cases cl <;> cases al <;> cases aa <;> cases aq <;>
    cases hpa : parseAmount config.Fees <;>
    simp_all [spamTransactionsModel]

theorem countAccepted_take_succ (l : List Attempt) (i : Nat) (h : i < l.length) :
    countAccepted (l.take (i + 1))
      = countAccepted (l.take i) + (if (l.get ⟨i, h⟩).result.isAccepted then 1 else 0) := by
  induction l generalizing i with
  | nil => simp at h
  | cons a as ih =>
    cases i with
    | zero => simp [countAccepted, List.countP_cons]
    | succ j =>
      have hj : j < as.length := Nat.lt_of_succ_lt_succ h
      simp only [List.take_succ_cons, List.get_cons_succ, countAccepted_cons]
      rw [ih j hj]
      omega

theorem countAccepted_le_length (l : List Attempt) : countAccepted l ≤ l.length :=
  List.countP_le_length _

/-- C1: in a successful run the base sequence is the one value fetched by
the single pre-loop `fetchAccountSequence` call, the sequence supplied to
attempt `i` is that base plus the number of prior accepted attempts, and
the sequences of consecutive attempts grow by exactly one on acceptance and are
reused unchanged after a rejection or transport error — non-decreasing
with no gaps. -/
theorem sequence_allocation (config : Config) (pre : PreEnv) (events : List Event)
    (base : Nat) (attempts : List Attempt) (ex : LoopExit)
    (hseq : pre.sequenceQuery = .ok base)
    (hok : spamTransactionsModel config pre events = .ok (attempts, ex))
    (hw : base + events.length < wordSize) :
    ∀ i (h : i < attempts.length),
      (attempts.get ⟨i, h⟩).seq = base + countAccepted (attempts.take i)
      ∧ ∀ (h2 : i + 1 < attempts.length),
          (attempts.get ⟨i + 1, h2⟩).seq
            = (attempts.get ⟨i, h⟩).seq
              + (if (attempts.get ⟨i, h⟩).result.isAccepted then 1 else 0) := by
  have hinv := spamModel_ok_inv config pre events (attempts, ex) base hseq hok
  have hatt : attempts = (runLoop config.Memo base 0 events).1 := congrArg Prod.fst hinv
  have hspec := runLoop_attemptsSpec config.Memo base events 0 (by omega)
  rw [← hatt] at hspec
  have hget := attemptsSpec_get config.Memo base attempts 0 hspec
  have hlenle : attempts.length ≤ events.length := by
    rw [hatt]; exact runLoop_length_le config.Memo base events 0
  have hseqf : ∀ i (h : i < attempts.length),
      (attempts.get ⟨i, h⟩).seq = base + countAccepted (attempts.take i) := by
    intro i h
    obtain ⟨hidx, hseqi, -⟩ := hget i h
    rw [hseqi, hidx, Nat.zero_add]
    apply Nat.mod_eq_of_lt
    have h1 : countAccepted (attempts.take i) ≤ attempts.length := by
      calc countAccepted (attempts.take i) ≤ (attempts.take i).length :=
            countAccepted_le_length _
        _ ≤ attempts.length := by
            rw [List.length_take]; exact Nat.min_le_right _ _
    omega
  intro i h
  refine ⟨hseqf i h, fun h2 => ?_⟩
  rw [hseqf (i + 1) h2, hseqf i h, countAccepted_take_succ attempts i h]
  omega

theorem sequence_allocation_witness :
    ([(⟨0, 42, TickResult.response 0 "feed0001",
        some ⟨0, "feed0001", "test memo"⟩⟩ : Attempt)].get ⟨0, by decide⟩).seq
      = 42 + countAccepted
          ([(⟨0, 42, TickResult.response 0 "feed0001",
              some ⟨0, "feed0001", "test memo"⟩⟩ : Attempt)].take 0) :=
  (sequence_allocation baseConfig preOk [Event.tick (TickResult.response 0 "feed0001")] 42
      [⟨0, 42, TickResult.response 0 "feed0001", some ⟨0, "feed0001", "test memo"⟩⟩]
      (LoopExit.running 1) rfl rfl (by decide) 0 (by decide)).1

/-- C6 fails as stated: the `txNum` that drives the every-100th-attempt
log sampling does not increment on failed attempts.  On a trace with a
rejection followed by an acceptance, both attempts are passed index 0,
not 0 and 1. -/
theorem attempt_index_reused_on_failure :
    (loopAttempts "test memo" 7 rejectThenAccept).map Attempt.index = [0, 0]
    ∧ (loopAttempts "test memo" 7 rejectThenAccept).map Attempt.index ≠ [0, 1] := by
  exact ⟨by rfl, by decide⟩

/-- C6 amended: the index driving the every-100th-attempt log sampling is
the success counter: attempt `i` is passed the number of prior accepted
attempts, the index advances by one exactly on accepted attempts (a
failed attempt reuses the same index), and an accepted attempt whose
index is a multiple of 100 logs the transaction hash and memo (otherwise
nothing is logged). -/
theorem log_sampling_success_counter (memo : String) (base : Nat) (events : List Event)
    (hlen : events.length < wordSize) :
    ∀ i (h : i < (loopAttempts memo base events).length),
      ((loopAttempts memo base events).get ⟨i, h⟩).index
        = countAccepted ((loopAttempts memo base events).take i)
      ∧ (∀ (h2 : i + 1 < (loopAttempts memo base events).length),
          ((loopAttempts memo base events).get ⟨i + 1, h2⟩).index
            = ((loopAttempts memo base events).get ⟨i, h⟩).index
              + (if ((loopAttempts memo base events).get ⟨i, h⟩).result.isAccepted
                 then 1 else 0))
      ∧ ((loopAttempts memo base events).get ⟨i, h⟩).log
          = attemptLog memo (((loopAttempts memo base events).get ⟨i, h⟩).index)
              (((loopAttempts memo base events).get ⟨i, h⟩).result)
      ∧ (∀ txHash,
          ((loopAttempts memo base events).get ⟨i, h⟩).result
              = TickResult.response 0 txHash →
          ((loopAttempts memo base events).get ⟨i, h⟩).log
            = if ((loopAttempts memo base events).get ⟨i, h⟩).index % 100 = 0
              then some ⟨((loopAttempts memo base events).get ⟨i, h⟩).index, txHash, memo⟩
              else none) := by
  have hspec := runLoop_attemptsSpec memo base events 0 (by omega)
  have hget := attemptsSpec_get memo base _ 0 hspec
  unfold loopAttempts
  intro i h
  obtain ⟨hidx, -, hlog⟩ := hget i h
  refine ⟨by simpa using hidx, ?_, hlog, ?_⟩
  · intro h2
    obtain ⟨hidx2, -, -⟩ := hget (i + 1) h2
    rw [hidx2, hidx, countAccepted_take_succ _ i h]
    omega
  · intro txHash hres
    rw [hlog, hres]
    rfl

theorem log_sampling_success_counter_witness :
    ((loopAttempts "test memo" 7 rejectThenAccept).get ⟨1, by decide⟩).index
      = countAccepted ((loopAttempts "test memo" 7 rejectThenAccept).take 1) :=
  (log_sampling_success_counter "test memo" 7 rejectThenAccept (by decide) 1 (by decide)).1

/-- C7: when the cancellation signal is the next event, the loop stops
without processing later events and the whole run returns without error,
reporting exactly the number of attempts accepted before cancellation
(zero included). -/
theorem cancellation_clean_exit (config : Config) (pre : PreEnv)
    (preEv postEv : List Event) (base : Nat) (amt : Coins)
    (rp : String × String) (kh : String) (ad : String)
    (hci : pre.chainInfo = .ok rp) (hkh : pre.keyringHome = .ok kh)
    (hcl : pre.clientInit = .ok ()) (hal : pre.accountLookup = .ok ())
    (haa : pre.accountAddr = .ok ad) (haq : pre.accountQuery = .ok ())
    (hsq : pre.sequenceQuery = .ok base)
    (hpa : parseAmount config.Fees = .ok amt)
    (hnc : Event.cancel ∉ preEv) (hlen : preEv.length < wordSize) :
    spamTransactionsModel config pre (preEv ++ Event.cancel :: postEv)
      = .ok (loopAttempts config.Memo base preEv,
             LoopExit.cancelled (countAccepted (loopAttempts config.Memo base preEv))) := by
  obtain ⟨ci, kh1, cl1, al1, aa1, aq1, sq1⟩ := pre
  simp only at hci hkh hcl hal haa haq hsq
  subst hci hkh hcl hal haa haq hsq
  simp only [spamTransactionsModel, hpa]
  rw [runLoop_cancel_split config.Memo base preEv postEv 0 hnc]
  rw [runLoop_exitCount config.Memo base preEv 0 (by omega)]
  simp [loopAttempts]

theorem cancellation_clean_exit_witness :
    spamTransactionsModel baseConfig preOk
        ([Event.tick (TickResult.response 0 "beef0002")] ++ Event.cancel :: [])
      = .ok (loopAttempts "test memo" 42 [Event.tick (TickResult.response 0 "beef0002")],
             LoopExit.cancelled (countAccepted
               (loopAttempts "test memo" 42 [Event.tick (TickResult.response 0 "beef0002")]))) :=
  cancellation_clean_exit baseConfig preOk
    [Event.tick (TickResult.response 0 "beef0002")] [] 42 [⟨"uatom", 1000⟩]
    ("https://rpc.example", "cosmos") "/home/user/.spamtx" "cosmos1self"
    rfl rfl rfl rfl rfl rfl rfl (by rfl) (by decide) (by decide)

/-- C8: `parseAmount` fails exactly on the empty string, on strings the
coin parser rejects, and on amounts that parse to a zero-valued coin set;
and whenever the configured fee string fails to parse, the whole run
aborts with an error before any submission is attempted. -/
theorem parse_amount_fail_fast (s : String) :
    ((parseAmount s).isOk = false ↔
      s = "" ∨ ParseCoinsNormalized s = none
        ∨ ∃ c, ParseCoinsNormalized s = some c ∧ Coins.IsZero c = true)
    ∧ ∀ (config : Config) (pre : PreEnv) (events : List Event),
        config.Fees = s → (parseAmount s).isOk = false →
        ∃ e, spamTransactionsModel config pre events = .error e := by
  constructor
  · by_cases hs : s = ""
    · simp [parseAmount, hs, Except.isOk, Except.toBool]
    · cases hp : ParseCoinsNormalized s with
      | none => simp [parseAmount, hs, hp, Except.isOk, Except.toBool]
      | some c =>
        by_cases hz : Coins.IsZero c
        · simp [parseAmount, hs, hp, hz, Except.isOk, Except.toBool]
        · simp [parseAmount, hs, hp, hz, Except.isOk, Except.toBool]
  · intro config pre events hfee hfail
    subst hfee
    obtain ⟨ci, kh, cl, al, aa, aq, sq⟩ := pre
    cases ci with
    | error e => exact ⟨_, rfl⟩
    | ok v1 =>
      cases kh with
      | error e => exact ⟨_, rfl⟩
      | ok v2 =>
        cases cl with
        | error e => exact ⟨_, rfl⟩
        | ok v3 =>
          cases al with
          | error e => exact ⟨_, rfl⟩
          | ok v4 =>
            cases aa with
            | error e => exact ⟨_, rfl⟩
            | ok v5 =>
              cases aq with
              | error e => exact ⟨_, rfl⟩
              | ok v6 =>
                cases sq with
                | error e => exact ⟨_, rfl⟩
                | ok base =>
                  cases hp : parseAmount config.Fees with
                  | error e =>
                    exact ⟨"failed to parse fees as amount: " ++ e,
                      by simp [spamTransactionsModel, hp]⟩
                  | ok c =>
                    rw [hp] at hfail
                    simp [Except.isOk, Except.toBool] at hfail

theorem parse_amount_fail_fast_witness :
    ∃ e, spamTransactionsModel { baseConfig with Fees := "invalid" } preOk [] = .error e :=
  (parse_amount_fail_fast "invalid").2 { baseConfig with Fees := "invalid" } preOk [] rfl (by rfl)

/-- C9: configuration validation rejects a zero target rate (and an empty
chain name, account, fee string, or memo) with an error before the engine
is invoked, and whenever validation passes — the only way the engine is
started — the rate is positive, so the run loop and scheduler never
observe a rate of zero. -/
theorem validate_config_guards_engine (config : Config) (pre : PreEnv) (events : List Event) :
    ((config.Chain = "" ∨ config.Account = "" ∨ config.Fees = "" ∨ config.Memo = ""
        ∨ config.TPS = 0) →
      ∃ e, validateConfig config = some e ∧ spamCmdRun config pre events = .error e)
    ∧ (validateConfig config = none →
        0 < config.TPS
        ∧ spamCmdRun config pre events = spamTransactionsModel config pre events) := by
  have hchar : validateConfig config = none →
      config.Chain ≠ "" ∧ config.Account ≠ "" ∧ config.Fees ≠ "" ∧ config.Memo ≠ ""
        ∧ config.TPS ≠ 0 := by
    intro hn
    unfold validateConfig at hn
    split_ifs at hn with h1 h2 h3 h4 h5
    all_goals simp_all
  constructor
  · intro h
    cases hv : validateConfig config with
    | none =>
      obtain ⟨h1, h2, h3, h4, h5⟩ := hchar hv
      rcases h with h | h | h | h | h <;> contradiction
    | some e => exact ⟨e, rfl, by simp [spamCmdRun, hv]⟩
  · intro hv
    obtain ⟨-, -, -, -, h5⟩ := hchar hv
    exact ⟨Nat.pos_of_ne_zero h5, by simp [spamCmdRun, hv]⟩

theorem validate_config_guards_engine_witness :
    ∃ e, validateConfig { baseConfig with TPS := 0 } = some e
      ∧ spamCmdRun { baseConfig with TPS := 0 } preOk [] = .error e :=
  (validate_config_guards_engine { baseConfig with TPS := 0 } preOk []).1
    (Or.inr (Or.inr (Or.inr (Or.inr rfl))))

/-- C3: with no override, a gas limit of 60000 does fall back to the
default 10, but for a gas limit below the 50000 overhead the claimed
fallback does not happen: the `uint64` subtraction `gasLimit - 50000`
wraps, so gas limit 40000 yields 1229782938247302 outputs instead of
10. -/
theorem calculateAddressCount_underflow_bug :
    calculateAddressCount { baseConfig with GasLimit := 60000 } = 10
    ∧ calculateAddressCount { baseConfig with GasLimit := 40000 } = 1229782938247302
    ∧ calculateAddressCount { baseConfig with GasLimit := 40000 } ≠ 10 := by
  refine ⟨by decide, by decide, by decide⟩

end Spamtx
